import Mathlib

/-!
Verification of the British Airways review scraper (src/main.py).

The Python program is shallowly embedded: BeautifulSoup extraction results are
modelled as the fields of `ReviewUnit` (an `Option` is `none` exactly when the
corresponding element/attribute access raises inside its `try` block), Python
dicts are modelled as ordered association lists with Python's insertion-order /
overwrite-in-place update semantics, and the network is modelled as an
environment mapping a page index to either a fetched page or a raised error.
-/

set_option maxHeartbeats 1000000

/-- The whitespace character set used by Python's `str.strip()` and by `re`'s
`\s` on `str` inputs (Unicode whitespace).  Only the ASCII part is ever
exercised by `clean_text` step 3, whose input has already been filtered to
ASCII. -/
def isPyWs (c : Char) : Bool :=
  c = ' ' || c = '\t' || c = '\n' || c = '\r' || c = '\x0b' || c = '\x0c' ||
  c = '\x1c' || c = '\x1d' || c = '\x1e' || c = '\x1f' || c = '\x85' || c = '\xa0' ||
  c = '\u1680' || (('\u2000' ≤ c) && (c ≤ '\u200a')) ||
  c = '\u2028' || c = '\u2029' || c = '\u202f' || c = '\u205f' || c = '\u3000'

/-- Python `text.strip()` / `text.strip(chars)`: remove all leading and all
trailing characters satisfying `p`. -/
def pyStrip (p : Char → Bool) (l : List Char) : List Char :=
  (((l.dropWhile p).reverse.dropWhile p)).reverse

/-- Python `str.strip()` on a string. -/
def pyStripStr (s : String) : String :=
  String.mk (pyStrip isPyWs s.data)

/-- The four sequential single-character replacements of main.py line 27
(`'“'→'"'`, `'”'→'"'`, `'‘'→'\x27'`, `'’'→'\x27'`), as one character map. -/
def curlyMap (c : Char) : Char :=
  if c = '“' || c = '”' then '"'
  else if c = '‘' || c = '’' then '\x27'
  else c

/-- `re.sub(r'\s+', ' ', text)`: replace every maximal run of whitespace by a
single space.  The flag records whether the previous character was part of a
whitespace run already replaced. -/
def collapseAux : Bool → List Char → List Char
  | _, [] => []
  | false, c :: rest =>
    if isPyWs c then ' ' :: collapseAux true rest
    else c :: collapseAux false rest
  | true, c :: rest =>
    if isPyWs c then collapseAux true rest
    else c :: collapseAux false rest

def collapseWs (l : List Char) : List Char := collapseAux false l

/-- `clean_text` (main.py lines 23-32): drop non-ASCII characters, normalize
curly quotes, collapse whitespace runs, then
`text.strip('"').strip("\x27").strip()`. -/
def clean_text (s : String) : String :=
  let t1 := s.data.filter (fun c => c.toNat ≤ 127)
  let t2 := t1.map curlyMap
  let t3 := collapseWs t2
  let t4 := pyStrip (fun c => c = '"') t3
  let t5 := pyStrip (fun c => c = '\x27') t4
  let t6 := pyStrip isPyWs t5
  String.mk t6

/-- Python's substring test `needle in hay`. -/
def containsSub (needle hay : String) : Bool :=
  hay.data.tails.any (fun t => List.isPrefixOf needle.data t)

/-- A Python value stored in a review record: a string, an int (star count),
or `None`. -/
inductive Value where
  | str (s : String)
  | int (n : Nat)
  | none
deriving DecidableEq, Repr

/-- One `<td>` cell of the review-ratings table: its `get_text(strip=True)`
text and the class lists of its `span.star` children (empty list when the cell
holds no star spans). -/
structure Cell where
  text : String
  starClasses : List (List String)
deriving DecidableEq, Repr

/-- One review `<article>` as seen through the BeautifulSoup calls of
`parse_single_review`: each field is the result of the corresponding element
access, `none` when that access raises (missing element or attribute). -/
structure ReviewUnit where
  /-- `review.find("h2", class_="text_header").text`. -/
  titleText : Option String
  /-- `review.find("div", class_="rating-10").text`. -/
  ratingText : Option String
  /-- `review.find("div", class_="text_content").text`. -/
  contentText : Option String
  /-- `review.find("h3", class_="userStatusWrapper").text`. -/
  authorText : Option String
  /-- `review.find("time")["datetime"]`. -/
  timeDatetime : Option String
  /-- `review.find("table", class_="review-ratings")`: rows of `<td>` cells. -/
  table : Option (List (List Cell))
deriving DecidableEq, Repr

/-- Python dict assignment `d[k] = v`: overwrite in place when the key exists
(keeping its position), otherwise append at the end. -/
def dictInsert (d : List (String × Value)) (k : String) (v : Value) :
    List (String × Value) :=
  if d.any (fun p => p.1 = k) then
    d.map (fun p => if p.1 = k then (k, v) else p)
  else
    d ++ [(k, v)]

/-- Python `d.update(e)`: insert `e`'s pairs into `d` in order. -/
def dictUpdate (d e : List (String × Value)) : List (String × Value) :=
  e.foldl (fun acc p => dictInsert acc p.1 p.2) d

/-- Python `d[k]`: the value stored for key `k` (records never hold duplicate
keys, so first match is the match). -/
def getVal {α : Type} (d : List (String × α)) (k : String) : Option α :=
  match d with
  | [] => Option.none
  | p :: rest => if p.1 = k then Option.some p.2 else getVal rest k

/-- One row of the loop of `extract_review_details` (main.py lines 39-53):
rows with other than two cells are skipped; a cell with star spans contributes
the count of spans whose class list contains "fill", otherwise its text. -/
def detailStep (d : List (String × Value)) (row : List Cell) :
    List (String × Value) :=
  match row with
  | [c0, c1] =>
    if !c1.starClasses.isEmpty then
      dictInsert d c0.text
        (Value.int (c1.starClasses.countP (fun cls => cls.contains "fill")))
    else
      dictInsert d c0.text (Value.str c1.text)
  | _ => d

/-- `extract_review_details` (main.py lines 34-54): fold the rows of the
ratings table into a dict; an absent table yields the empty dict. -/
def extract_review_details (u : ReviewUnit) : List (String × Value) :=
  match u.table with
  | Option.none => []
  | Option.some rows => rows.foldl detailStep []

/-- Lines 60-63: `title = clean_text(review.find(...).text.strip())`, default `""`. -/
def fieldTitle (u : ReviewUnit) : String :=
  match u.titleText with
  | Option.some t => clean_text (pyStripStr t)
  | Option.none => ""

/-- Lines 65-69: `rating = rating_tag if rating_tag else None`, default `None`.
The only falsy string is the empty string. -/
def fieldRating (u : ReviewUnit) : Value :=
  match u.ratingText with
  | Option.some t => if t = "" then Value.none else Value.str t
  | Option.none => Value.none

/-- Lines 71-75: `content = review.find(...).text.strip()` with the check-mark
(U+2705) and cross-mark (U+274C) glyphs removed, default `""`. -/
def bodyContent (u : ReviewUnit) : String :=
  match u.contentText with
  | Option.some c =>
    String.mk ((pyStrip isPyWs c.data).filter
      (fun ch => ch ≠ '✅' && ch ≠ '❌'))
  | Option.none => ""

/-- Lines 77-81: `author = clean_text(review.find(...).text.strip())`, default `""`. -/
def fieldAuthor (u : ReviewUnit) : String :=
  match u.authorText with
  | Option.some a => clean_text (pyStripStr a)
  | Option.none => ""

/-- Lines 83-86: `date = review.find("time")["datetime"]`, default `""`. -/
def fieldDate (u : ReviewUnit) : String :=
  match u.timeDatetime with
  | Option.some d => d
  | Option.none => ""

/-- Lines 88-91: `"Yes" if "Trip Verified" in content else "No"`; `content`
here is the glyph-stripped body (or `""` when extraction failed). -/
def fieldTrip (u : ReviewUnit) : String :=
  if containsSub "Trip Verified" (bodyContent u) then "Yes" else "No"

/-- The six fixed record fields of lines 97-104, in source order. -/
def fixedRecord (u : ReviewUnit) : List (String × Value) :=
  [("Date", Value.str (fieldDate u)),
   ("Author", Value.str (fieldAuthor u)),
   ("Title", Value.str (fieldTitle u)),
   ("Rating", fieldRating u),
   ("Trip Verified", Value.str (fieldTrip u)),
   ("Review", Value.str (bodyContent u))]

def fixedKeys : List String :=
  ["Date", "Author", "Title", "Rating", "Trip Verified", "Review"]

/-- `parse_single_review` (main.py lines 58-107): build the fixed record and
merge in the detail-table dict via `review_data.update(additional_details)`. -/
def parse_single_review (u : ReviewUnit) : List (String × Value) :=
  dictUpdate (fixedRecord u) (extract_review_details u)

/-- The outcome of `requests.get` + soup construction for one page: either the
review units found on the fetched page, or a raised transport error. -/
inductive FetchResult where
  | ok (units : List ReviewUnit)
  | err (msg : String)
deriving DecidableEq, Repr

/-- `parse_page` (main.py lines 110-119): fetch (propagating any fetch
failure), map `parse_single_review` over the units in document order, and
report the count.  The returned list of strings is the console output. -/
def parse_page (env : Nat → FetchResult) (n : Nat) :
    Except String (List (List (String × Value)) × List String) :=
  match env n with
  | FetchResult.err m => Except.error m
  | FetchResult.ok units =>
    Except.ok (units.map parse_single_review,
      ["Page " ++ toString n ++ ": " ++ toString units.length ++ " reviews found."])

/-- The records page `p` contributes to the run: its parsed units on success,
nothing on failure. -/
def pageRecords (env : Nat → FetchResult) (p : Nat) :
    List (List (String × Value)) :=
  match env p with
  | FetchResult.ok units => units.map parse_single_review
  | FetchResult.err _ => []

/-- One iteration of the loop of `scrape_all_reviews` (lines 124-131): print
the progress line, attempt the page, extend the accumulator on success, print
a diagnostic on failure.  (`time.sleep(2)` has no observable effect on the
result and is not modelled.) -/
def scrapeStep (env : Nat → FetchResult)
    (st : List (List (String × Value)) × List String) (page : Nat) :
    List (List (String × Value)) × List String :=
  let st := (st.1, st.2 ++ ["Scraping page " ++ toString page ++ "..."])
  match parse_page env page with
  | Except.ok (recs, out) => (st.1 ++ recs, st.2 ++ out)
  | Except.error e => (st.1, st.2 ++ ["Error on page " ++ toString page ++ ": " ++ e])

/-- `scrape_all_reviews` (main.py lines 122-134): iterate pages 1..pages,
returning the accumulated records (the rows of the final DataFrame) together
with the console output. -/
def scrape_all_reviews (env : Nat → FetchResult) (pages : Nat) :
    List (List (String × Value)) × List String :=
  (List.range' 1 pages).foldl (scrapeStep env) ([], [])

/-- Modelled from the spec: the Output Writer is `pd.DataFrame(all_reviews)`
followed by `DataFrame.to_csv` (main.py lines 134 and 141), pandas library
code not present in this repository.  Per spec §4.7 the header row is the
union of all field names across all records in first-seen order. -/
def headerStep (cols : List String) (r : List (String × Value)) : List String :=
  cols ++ (r.map Prod.fst).filter (fun k => !cols.contains k)

def csvHeader (records : List (List (String × Value))) : List String :=
  records.foldl headerStep []

/-- Modelled from the spec: the cell text a value serializes to — strings
verbatim, star counts in decimal, the absent marker as an empty cell. -/
def cellOf (v : Value) : String :=
  match v with
  | Value.str s => s
  | Value.int n => toString n
  | Value.none => ""

/-- Modelled from the spec: the row written for record `r` — one cell per
header column, empty when the record lacks the key (spec §4.7). -/
def csvRow (records : List (List (String × Value))) (r : List (String × Value)) :
    List String :=
  (csvHeader records).map (fun k =>
    match getVal r k with
    | Option.some v => cellOf v
    | Option.none => "")

/-- Modelled from the spec: the full cell grid written to the output file. -/
def csvRows (records : List (List (String × Value))) : List (List String) :=
  records.map (csvRow records)

/-- Modelled from the spec: re-reading one CSV row — pair each header column
with its cell and keep the non-empty cells, an empty cell reading back as
missing (spec §8 round-trip property). -/
def readBackRow (header : List String) (row : List String) :
    List (String × String) :=
  (header.zip row).filter (fun p => p.2 ≠ "")

/-- No two adjacent characters are both whitespace. -/
def NoWsRun (l : List Char) : Prop :=
  List.Chain' (fun a b => ¬(isPyWs a = true ∧ isPyWs b = true)) l

/-- Executable check for `NoWsRun`. -/
def noWsRunB : List Char → Bool
  | [] => true
  | [_] => true
  | a :: b :: rest => (!(isPyWs a && isPyWs b)) && noWsRunB (b :: rest)

instance (l : List Char) : Decidable (NoWsRun l) :=
  decidable_of_iff (noWsRunB l = true) (Iff.symm (by
    induction l with
    | nil => simp [NoWsRun, noWsRunB]
    | cons a rest ih =>
      cases rest with
      | nil => simp [NoWsRun, noWsRunB]
      | cons b rs =>
        unfold NoWsRun at ih ⊢
        rw [List.chain'_cons, noWsRunB, Bool.and_eq_true, ← ih]
        constructor
        · rintro ⟨h1, h2⟩
          refine ⟨?_, h2⟩
          simp only [Bool.not_eq_true', Bool.and_eq_false_iff]
          by_cases hwa : isPyWs a = true
          · by_cases hwb : isPyWs b = true
            · exact absurd ⟨hwa, hwb⟩ h1
            · exact Or.inr (Bool.not_eq_true _ ▸ hwb)
          · exact Or.inl (Bool.not_eq_true _ ▸ hwa)
        · rintro ⟨h1, h2⟩
          refine ⟨?_, h2⟩
          rintro ⟨hwa, hwb⟩
          simp only [Bool.not_eq_true', Bool.and_eq_false_iff] at h1
          rcases h1 with h1 | h1
          · rw [hwa] at h1; exact Bool.noConfusion h1
          · rw [hwb] at h1; exact Bool.noConfusion h1))

/-- Every whitespace character is a plain space. -/
def WsClean (l : List Char) : Prop :=
  ∀ c ∈ l, isPyWs c = true → c = ' '

instance (l : List Char) : Decidable (WsClean l) :=
  List.decidableBAll _ l

/-- A fully populated review unit, used as a concrete fixture. -/
def unitFull : ReviewUnit :=
  { titleText := Option.some "  A Great Trip!  "
  , ratingText := Option.some "5"
  , contentText := Option.some "✅ Trip Verified |  Lovely flight."
  , authorText := Option.some "Jane Doe (United Kingdom)"
  , timeDatetime := Option.some "2024-05-01"
  , table := Option.some
      [[Cell.mk "Seat Comfort" [],
        Cell.mk "" [["star", "fill"], ["star", "fill"], ["star", "fill"],
          ["star", "fill"], ["star"]]],
       [Cell.mk "Recommended" [], Cell.mk "yes" []]] }

/-- A unit whose author element is missing. -/
def unitNoAuthor : ReviewUnit :=
  { titleText := Option.some "Fine"
  , ratingText := Option.some "3"
  , contentText := Option.some "Not Verified | It was fine."
  , authorText := Option.none
  , timeDatetime := Option.some "2024-05-02"
  , table := Option.none }

/-- A unit whose body text contains the verification phrase only once the
check-mark glyph has been removed. -/
def unitGlyphSplit : ReviewUnit :=
  { titleText := Option.none, ratingText := Option.none
  , contentText := Option.some "Trip ✅Verified"
  , authorText := Option.none, timeDatetime := Option.none
  , table := Option.none }

/-- A unit whose detail table carries a "Date" row colliding with the fixed
field of the same name. -/
def unitDateRow : ReviewUnit :=
  { titleText := Option.some "T", ratingText := Option.some "2"
  , contentText := Option.some "ok", authorText := Option.some "A B"
  , timeDatetime := Option.some "2024-01-05"
  , table := Option.some [[Cell.mk "Date" [], Cell.mk "5th May 2024" []]] }

/-- A unit whose rating element is present but has empty text. -/
def unitEmptyRating : ReviewUnit :=
  { titleText := Option.some "T", ratingText := Option.some ""
  , contentText := Option.some "body", authorText := Option.some "A"
  , timeDatetime := Option.some "2024-02-02", table := Option.none }

/-- A unit with no rating element at all. -/
def unitNoRating : ReviewUnit :=
  { unitEmptyRating with ratingText := Option.none }

/-- An environment in which page 2 raises a transport error and every other
page returns two review units. -/
def envPage2Fails : Nat → FetchResult := fun p =>
  if p = 2 then FetchResult.err "ConnectionError"
  else FetchResult.ok [unitFull, unitNoAuthor]

/-- An environment with a single well-formed page. -/
def envOnePage : Nat → FetchResult := fun _ => FetchResult.ok [unitFull]

/-- Concrete records for the output-writer round trip. -/
def rtRecord1 : List (String × Value) :=
  [("Date", Value.str "2024-05-01"), ("Rating", Value.none)]

def rtRecord2 : List (String × Value) :=
  [("Seat Comfort", Value.int 4)]

def rtRecords : List (List (String × Value)) := [rtRecord1, rtRecord2]

/-! ### Ordered-dict lemmas -/

theorem any_key_iff (d : List (String × Value)) (k : String) :
    d.any (fun p => p.1 = k) = true ↔ k ∈ d.map Prod.fst := by
  simp [List.any_eq_true, List.mem_map]

theorem getVal_append {α : Type} (d e : List (String × α)) (k : String) :
    getVal (d ++ e) k =
      match getVal d k with
      | Option.some v => Option.some v
      | Option.none => getVal e k := by
  induction d with
  | nil => simp [getVal]
  | cons p rest ih =>
    by_cases hp : p.1 = k <;> simp [getVal, hp, ih]

theorem getVal_isSome_iff {α : Type} (d : List (String × α)) (k : String) :
    (getVal d k).isSome = true ↔ k ∈ d.map Prod.fst := by
  induction d with
  | nil => simp [getVal]
  | cons p rest ih =>
    by_cases hp : p.1 = k
    · simp [getVal, hp]
    · have hg : getVal (p :: rest) k = getVal rest k := by simp [getVal, hp]
      rw [hg, List.map_cons, List.mem_cons, ih]
      constructor
      · exact Or.inr
      · rintro (h | h)
        · exact absurd h.symm hp
        · exact h

theorem getVal_overwriteMap (k : String) (v : Value) :
    ∀ (d : List (String × Value)) (a : String),
    getVal (d.map (fun p => if p.1 = k then (k, v) else p)) a =
      if a = k then (getVal d a).map (fun _ => v) else getVal d a := by
  intro d
  induction d with
  | nil => intro a; simp [getVal]
  | cons p rest ih =>
    intro a
    by_cases ha : a = k
    · subst ha
      by_cases hp : p.1 = a
      · simp [getVal, hp, ih]
      · simp [getVal, hp, ih]
    · have hka : ¬ (k = a) := fun h => ha h.symm
      by_cases hp : p.1 = k
      · have hpa : ¬ (p.1 = a) := by rw [hp]; exact hka
        simp [getVal, hp, hpa, hka, ha, ih]
      · by_cases hpa : p.1 = a
        · simp [getVal, hp, hpa, ha]
        · simp [getVal, hp, hpa, ha, ih]

theorem getVal_dictInsert (d : List (String × Value)) (k : String) (v : Value)
    (a : String) :
    getVal (dictInsert d k v) a = if a = k then Option.some v else getVal d a := by
  unfold dictInsert
  by_cases h : d.any (fun p => p.1 = k) = true
  · rw [if_pos h, getVal_overwriteMap]
    by_cases ha : a = k
    · subst ha
      have hm : a ∈ d.map Prod.fst := (any_key_iff d a).mp h
      have hs : (getVal d a).isSome = true := (getVal_isSome_iff d a).mpr hm
      rcases ho : getVal d a with _ | w
      · rw [ho] at hs; simp at hs
      · simp
    · simp [ha]
  · rw [if_neg h, getVal_append]
    by_cases ha : a = k
    · subst ha
      have hm : ¬ a ∈ d.map Prod.fst := fun hmem => h ((any_key_iff d a).mpr hmem)
      have hs : ¬ (getVal d a).isSome = true := fun hx => hm ((getVal_isSome_iff d a).mp hx)
      rcases ho : getVal d a with _ | w
      · simp [getVal]
      · rw [ho] at hs; simp at hs
    · rcases ho : getVal d a with _ | w
      · have hka : ¬ (k = a) := fun hk => ha hk.symm
        simp [getVal, hka, ha]
      · simp [ha]

theorem keys_dictInsert (d : List (String × Value)) (k : String) (v : Value) :
    (dictInsert d k v).map Prod.fst =
      if k ∈ d.map Prod.fst then d.map Prod.fst else d.map Prod.fst ++ [k] := by
  unfold dictInsert
  by_cases h : d.any (fun p => p.1 = k) = true
  · rw [if_pos h, if_pos ((any_key_iff d k).mp h), List.map_map]
    apply List.map_congr_left
    intro p _
    by_cases hp : p.1 = k <;> simp [hp]
  · rw [if_neg h, if_neg (fun hm => h ((any_key_iff d k).mpr hm)), List.map_append]
    rfl

theorem keys_nodup_dictInsert (d : List (String × Value)) (k : String) (v : Value)
    (h : (d.map Prod.fst).Nodup) : ((dictInsert d k v).map Prod.fst).Nodup := by
  rw [keys_dictInsert]
  by_cases hm : k ∈ d.map Prod.fst
  · rwa [if_pos hm]
  · rw [if_neg hm]
    simp [List.nodup_append, h, hm]

theorem keys_nodup_detailStep (d : List (String × Value)) (row : List Cell)
    (h : (d.map Prod.fst).Nodup) : ((detailStep d row).map Prod.fst).Nodup := by
  rcases row with _ | ⟨c0, _ | ⟨c1, _ | more⟩⟩
  · exact h
  · exact h
  · simp only [detailStep]
    split <;> exact keys_nodup_dictInsert _ _ _ h
  · exact h

theorem extract_keys_nodup (u : ReviewUnit) :
    ((extract_review_details u).map Prod.fst).Nodup := by
  unfold extract_review_details
  rcases u.table with _ | rows
  · simp
  · have main : ∀ (rows : List (List Cell)) (d : List (String × Value)),
        (d.map Prod.fst).Nodup → ((rows.foldl detailStep d).map Prod.fst).Nodup := by
      intro rows
      induction rows with
      | nil => intro d h; simpa using h
      | cons row rest ih =>
        intro d h
        rw [List.foldl_cons]
        exact ih _ (keys_nodup_detailStep _ _ h)
    exact main rows [] (by simp)

theorem getVal_dictUpdate_not_mem :
    ∀ (e d : List (String × Value)) (k : String),
    ¬ k ∈ e.map Prod.fst → getVal (dictUpdate d e) k = getVal d k := by
  intro e
  induction e with
  | nil => intro d k _; rfl
  | cons p rest ih =>
    intro d k hk
    have hk1 : ¬ (k = p.1) := fun h => hk (by simp [h])
    have hk2 : ¬ k ∈ rest.map Prod.fst := fun h => hk (by simp [h])
    show getVal (dictUpdate (dictInsert d p.1 p.2) rest) k = getVal d k
    rw [ih _ _ hk2, getVal_dictInsert, if_neg hk1]

theorem getVal_dictUpdate_mem :
    ∀ (e d : List (String × Value)) (k : String) (v : Value),
    (e.map Prod.fst).Nodup → getVal e k = Option.some v →
    getVal (dictUpdate d e) k = Option.some v := by
  intro e
  induction e with
  | nil => intro d k v _ h; simp [getVal] at h
  | cons p rest ih =>
    intro d k v hnd hv
    have hnd' : (rest.map Prod.fst).Nodup := (List.nodup_cons.mp hnd).2
    by_cases hp : p.1 = k
    · have hveq : Option.some p.2 = Option.some v := by
        rw [← hv]; simp [getVal, hp]
      have hkr : ¬ k ∈ rest.map Prod.fst := by
        intro hc
        exact (List.nodup_cons.mp hnd).1 (hp ▸ hc)
      show getVal (dictUpdate (dictInsert d p.1 p.2) rest) k = Option.some v
      rw [getVal_dictUpdate_not_mem _ _ _ hkr, getVal_dictInsert, if_pos hp.symm, hveq]
    · have hv' : getVal rest k = Option.some v := by
        rw [← hv]; simp [getVal, hp]
      exact ih _ _ _ hnd' hv'

theorem keys_dictUpdate :
    ∀ (e d : List (String × Value)), (e.map Prod.fst).Nodup →
    (dictUpdate d e).map Prod.fst =
      d.map Prod.fst ++
        (e.map Prod.fst).filter (fun x => !(d.map Prod.fst).contains x) := by
  intro e
  induction e with
  | nil => intro d _; simp [dictUpdate]
  | cons p rest ih =>
    intro d hnd
    have hnd' : (rest.map Prod.fst).Nodup := (List.nodup_cons.mp hnd).2
    have hp1 : ¬ p.1 ∈ rest.map Prod.fst := (List.nodup_cons.mp hnd).1
    show (dictUpdate (dictInsert d p.1 p.2) rest).map Prod.fst = _
    rw [ih _ hnd', keys_dictInsert]
    by_cases hm : p.1 ∈ d.map Prod.fst
    · rw [if_pos hm]
      have hfc : (p.1 :: rest.map Prod.fst).filter
            (fun x => !(d.map Prod.fst).contains x) =
          (rest.map Prod.fst).filter (fun x => !(d.map Prod.fst).contains x) := by
        rw [List.filter_cons]
        simp [hm]
      rw [List.map_cons, hfc]
    · rw [if_neg hm]
      have hfc : (p.1 :: rest.map Prod.fst).filter
            (fun x => !(d.map Prod.fst).contains x) =
          p.1 :: (rest.map Prod.fst).filter (fun x => !(d.map Prod.fst).contains x) := by
        rw [List.filter_cons]
        simp [hm]
      have hshift : (rest.map Prod.fst).filter
            (fun x => !((d.map Prod.fst ++ [p.1]).contains x)) =
          (rest.map Prod.fst).filter (fun x => !(d.map Prod.fst).contains x) := by
        apply List.filter_congr
        intro x hx
        have hxp : ¬ (x = p.1) := fun hh => hp1 (hh ▸ hx)
        simp [hxp]
      rw [List.map_cons, hfc, hshift]
      simp

/-! ### Character-list lemmas for `clean_text` -/

theorem mem_collapseAux :
    ∀ (l : List Char) (b : Bool) (c : Char), c ∈ collapseAux b l → c ∈ l ∨ c = ' ' := by
  intro l
  induction l with
  | nil => intro b c h; rcases b with _ | _ <;> simp [collapseAux] at h
  | cons d rest ih =>
    intro b c h
    rcases b with _ | _ <;>
      [skip; skip] <;>
      by_cases hd : isPyWs d = true
    · rw [collapseAux, if_pos hd] at h
      rcases List.mem_cons.mp h with h1 | h2
      · exact Or.inr h1
      · rcases ih true c h2 with hm | hs
        · exact Or.inl (List.mem_cons_of_mem _ hm)
        · exact Or.inr hs
    · rw [collapseAux, if_neg hd] at h
      rcases List.mem_cons.mp h with h1 | h2
      · exact Or.inl (h1 ▸ List.mem_cons_self _ _)
      · rcases ih false c h2 with hm | hs
        · exact Or.inl (List.mem_cons_of_mem _ hm)
        · exact Or.inr hs
    · rw [collapseAux, if_pos hd] at h
      rcases ih true c h with hm | hs
      · exact Or.inl (List.mem_cons_of_mem _ hm)
      · exact Or.inr hs
    · rw [collapseAux, if_neg hd] at h
      rcases List.mem_cons.mp h with h1 | h2
      · exact Or.inl (h1 ▸ List.mem_cons_self _ _)
      · rcases ih false c h2 with hm | hs
        · exact Or.inl (List.mem_cons_of_mem _ hm)
        · exact Or.inr hs

theorem wsClean_collapseAux : ∀ (l : List Char) (b : Bool), WsClean (collapseAux b l) := by
  intro l
  induction l with
  | nil => intro b c h; rcases b with _ | _ <;> simp [collapseAux] at h
  | cons d rest ih =>
    intro b c hc hw
    rcases b with _ | _ <;> by_cases hd : isPyWs d = true
    · rw [collapseAux, if_pos hd] at hc
      rcases List.mem_cons.mp hc with h1 | h2
      · exact h1
      · exact ih true c h2 hw
    · rw [collapseAux, if_neg hd] at hc
      rcases List.mem_cons.mp hc with h1 | h2
      · exact absurd (h1 ▸ hw) hd
      · exact ih false c h2 hw
    · rw [collapseAux, if_pos hd] at hc
      exact ih true c hc hw
    · rw [collapseAux, if_neg hd] at hc
      rcases List.mem_cons.mp hc with h1 | h2
      · exact absurd (h1 ▸ hw) hd
      · exact ih false c h2 hw

theorem head_collapseAux_true :
    ∀ (l : List Char) (c : Char),
    (collapseAux true l).head? = Option.some c → isPyWs c = false := by
  intro l
  induction l with
  | nil => intro c h; simp [collapseAux] at h
  | cons d rest ih =>
    intro c h
    by_cases hd : isPyWs d = true
    · rw [collapseAux, if_pos hd] at h
      exact ih c h
    · rw [collapseAux, if_neg hd] at h
      simp only [List.head?_cons, Option.some.injEq] at h
      rw [← h]
      exact Bool.eq_false_iff.mpr hd

theorem noWsRun_collapseAux : ∀ (l : List Char) (b : Bool), NoWsRun (collapseAux b l) := by
  intro l
  induction l with
  | nil => intro b; rcases b with _ | _ <;> simp [collapseAux, NoWsRun]
  | cons d rest ih =>
    intro b
    rcases b with _ | _ <;> by_cases hd : isPyWs d = true
    · rw [collapseAux, if_pos hd]
      show NoWsRun (' ' :: collapseAux true rest)
      unfold NoWsRun
      rw [List.chain'_cons']
      refine ⟨?_, ih true⟩
      intro y hy hcontra
      have := head_collapseAux_true rest y hy
      rw [this] at hcontra
      exact Bool.false_ne_true hcontra.2
    · rw [collapseAux, if_neg hd]
      show NoWsRun (d :: collapseAux false rest)
      unfold NoWsRun
      rw [List.chain'_cons']
      refine ⟨?_, ih false⟩
      intro y _ hcontra
      exact hd hcontra.1
    · rw [collapseAux, if_pos hd]
      exact ih true
    · rw [collapseAux, if_neg hd]
      show NoWsRun (d :: collapseAux false rest)
      unfold NoWsRun
      rw [List.chain'_cons']
      refine ⟨?_, ih false⟩
      intro y _ hcontra
      exact hd hcontra.1

theorem collapseAux_flag_irrel (l : List Char)
    (h : ∀ c, l.head? = Option.some c → isPyWs c = false) :
    collapseAux true l = collapseAux false l := by
  cases l with
  | nil => rfl
  | cons d rest =>
    have hd : isPyWs d = false := h d (by simp)
    rw [collapseAux, collapseAux, if_neg (by rw [hd]; exact Bool.false_ne_true),
      if_neg (by rw [hd]; exact Bool.false_ne_true)]

theorem collapseAux_eq_self :
    ∀ (l : List Char), WsClean l → NoWsRun l → collapseAux false l = l := by
  intro l
  induction l with
  | nil => intro _ _; rfl
  | cons d rest ih =>
    intro hclean hrun
    have hrun' : NoWsRun rest := List.Chain'.tail hrun
    have hclean' : WsClean rest := fun c hc => hclean c (List.mem_cons_of_mem _ hc)
    by_cases hd : isPyWs d = true
    · have hds : d = ' ' := hclean d (List.mem_cons_self _ _) hd
      have hhd : ∀ c, rest.head? = Option.some c → isPyWs c = false := by
        intro c hc
        unfold NoWsRun at hrun
        rw [List.chain'_cons'] at hrun
        have hr := hrun.1 c hc
        by_contra hcc
        exact hr ⟨hd, Bool.not_eq_false _ ▸ hcc⟩
      rw [collapseAux, if_pos hd, collapseAux_flag_irrel rest hhd, ih hclean' hrun', hds]
    · rw [collapseAux, if_neg hd, ih hclean' hrun']

theorem dropWhile_eq_self_of_head (p : Char → Bool) (l : List Char)
    (h : ∀ c, l.head? = Option.some c → p c = false) : l.dropWhile p = l := by
  cases l with
  | nil => rfl
  | cons d rest =>
    have hd : p d = false := h d (by simp)
    simp [List.dropWhile_cons, hd]

theorem head?_dropWhile_false (p : Char → Bool) :
    ∀ (l : List Char) (c : Char), (l.dropWhile p).head? = Option.some c → p c = false := by
  intro l
  induction l with
  | nil => intro c h; simp [List.dropWhile] at h
  | cons d rest ih =>
    intro c h
    by_cases hd : p d = true
    · rw [List.dropWhile_cons, if_pos hd] at h
      exact ih c h
    · rw [List.dropWhile_cons, if_neg hd] at h
      simp only [List.head?_cons, Option.some.injEq] at h
      rw [← h]
      exact Bool.eq_false_iff.mpr hd

theorem getLast?_dropWhile (p : Char → Bool) :
    ∀ (l : List Char), l.dropWhile p ≠ [] → (l.dropWhile p).getLast? = l.getLast? := by
  intro l
  induction l with
  | nil => intro h; simp [List.dropWhile] at h
  | cons d rest ih =>
    intro h
    by_cases hd : p d = true
    · rw [List.dropWhile_cons, if_pos hd] at h ⊢
      have hrest : rest ≠ [] := by
        intro hnil
        rw [hnil] at h
        simp [List.dropWhile] at h
      rw [ih h]
      rcases rest with _ | ⟨r, rs⟩
      · exact absurd rfl hrest
      · rw [List.getLast?_cons_cons]
    · rw [List.dropWhile_cons, if_neg hd]

theorem noWsRun_dropWhile (p : Char → Bool) :
    ∀ (l : List Char), NoWsRun l → NoWsRun (l.dropWhile p) := by
  intro l
  induction l with
  | nil => intro h; exact h
  | cons d rest ih =>
    intro h
    by_cases hd : p d = true
    · rw [List.dropWhile_cons, if_pos hd]
      exact ih (List.Chain'.tail h)
    · rw [List.dropWhile_cons, if_neg hd]
      exact h

theorem noWsRun_reverse (l : List Char) (h : NoWsRun l) : NoWsRun l.reverse := by
  unfold NoWsRun at *
  rw [List.chain'_reverse]
  exact List.Chain'.imp (fun a b hab => fun hc => hab ⟨hc.2, hc.1⟩) h

theorem noWsRun_pyStrip (p : Char → Bool) (l : List Char) (h : NoWsRun l) :
    NoWsRun (pyStrip p l) :=
  noWsRun_reverse _ (noWsRun_dropWhile p _ (noWsRun_reverse _ (noWsRun_dropWhile p l h)))

theorem mem_pyStrip (p : Char → Bool) (l : List Char) (c : Char)
    (h : c ∈ pyStrip p l) : c ∈ l := by
  unfold pyStrip at h
  rw [List.mem_reverse] at h
  have h2 := List.Sublist.mem h (List.dropWhile_sublist _)
  rw [List.mem_reverse] at h2
  exact List.Sublist.mem h2 (List.dropWhile_sublist _)

theorem dropWhile_eq_self_of_all (p : Char → Bool) (l : List Char)
    (h : ∀ c ∈ l, p c = false) : l.dropWhile p = l := by
  apply dropWhile_eq_self_of_head
  intro c hc
  cases l with
  | nil => simp at hc
  | cons d rest =>
    simp only [List.head?_cons, Option.some.injEq] at hc
    exact h c (hc ▸ List.mem_cons_self _ _)

theorem pyStrip_eq_self_of_none (p : Char → Bool) (l : List Char)
    (h : ∀ c ∈ l, p c = false) : pyStrip p l = l := by
  unfold pyStrip
  rw [dropWhile_eq_self_of_all p l h,
    dropWhile_eq_self_of_all p l.reverse (fun c hc => h c (List.mem_reverse.mp hc)),
    List.reverse_reverse]

theorem pyStrip_head (p : Char → Bool) (l : List Char) (c : Char)
    (h : (pyStrip p l).head? = Option.some c) : p c = false := by
  unfold pyStrip at h
  rw [List.head?_reverse] at h
  by_cases hne : (l.dropWhile p).reverse.dropWhile p = []
  · rw [hne] at h; simp at h
  · rw [getLast?_dropWhile p _ hne, List.getLast?_reverse] at h
    exact head?_dropWhile_false p _ _ h

theorem pyStrip_getLast (p : Char → Bool) (l : List Char) (c : Char)
    (h : (pyStrip p l).getLast? = Option.some c) : p c = false := by
  unfold pyStrip at h
  rw [List.getLast?_reverse] at h
  exact head?_dropWhile_false p _ _ h

theorem pyStrip_eq_self_of_ends (p : Char → Bool) (l : List Char)
    (h1 : ∀ c, l.head? = Option.some c → p c = false)
    (h2 : ∀ c, l.getLast? = Option.some c → p c = false) : pyStrip p l = l := by
  unfold pyStrip
  rw [dropWhile_eq_self_of_head p l h1]
  rw [dropWhile_eq_self_of_head p l.reverse
    (fun c hc => h2 c (by rwa [List.head?_reverse] at hc))]
  exact List.reverse_reverse l

theorem data_mk (l : List Char) : (String.mk l).data = l := rfl

theorem curlyMap_eq_self_of_ascii (c : Char) (h : c.toNat ≤ 127) : curlyMap c = c := by
  by_cases h1 : c = '“'
  · subst h1; exact absurd h (by decide)
  by_cases h2 : c = '”'
  · subst h2; exact absurd h (by decide)
  by_cases h3 : c = '‘'
  · subst h3; exact absurd h (by decide)
  by_cases h4 : c = '’'
  · subst h4; exact absurd h (by decide)
  unfold curlyMap
  simp [h1, h2, h3, h4]

theorem clean_text_unfold (s : String) :
    clean_text s =
      String.mk (pyStrip isPyWs (pyStrip (fun c => c = '\x27')
        (pyStrip (fun c => c = '"')
          (collapseWs ((s.data.filter (fun c => c.toNat ≤ 127)).map curlyMap))))) := rfl

/-- For a string with no straight quote characters the two quote-stripping
passes are no-ops, and the curly-quote map is the identity on the
ASCII-filtered characters. -/
theorem clean_text_no_quotes_eq (s : String)
    (hq : ∀ c ∈ s.data, ¬(c = '"' ∨ c = '\x27')) :
    clean_text s =
      String.mk (pyStrip isPyWs (collapseWs (s.data.filter (fun c => c.toNat ≤ 127)))) := by
  rw [clean_text_unfold]
  have hmap : (s.data.filter (fun c => c.toNat ≤ 127)).map curlyMap
      = s.data.filter (fun c => c.toNat ≤ 127) := by
    have hpt : ∀ c ∈ s.data.filter (fun c => c.toNat ≤ 127), curlyMap c = id c := by
      intro c hc
      exact curlyMap_eq_self_of_ascii c (of_decide_eq_true (List.mem_filter.mp hc).2)
    rw [List.map_congr_left hpt, List.map_id]
  rw [hmap]
  have hmem : ∀ c ∈ collapseWs (s.data.filter (fun c => c.toNat ≤ 127)),
      c ∈ s.data ∨ c = ' ' := by
    intro c hc
    rcases mem_collapseAux _ false c hc with hm | hs
    · exact Or.inl (List.mem_filter.mp hm).1
    · exact Or.inr hs
  have hdq : ∀ c ∈ collapseWs (s.data.filter (fun c => c.toNat ≤ 127)),
      (decide (c = '"')) = false := by
    intro c hc
    apply decide_eq_false
    rcases hmem c hc with hm | hs
    · exact fun he => hq c hm (Or.inl he)
    · rw [hs]; decide
  rw [pyStrip_eq_self_of_none _ _ hdq]
  have hsq : ∀ c ∈ collapseWs (s.data.filter (fun c => c.toNat ≤ 127)),
      (decide (c = '\x27')) = false := by
    intro c hc
    apply decide_eq_false
    rcases hmem c hc with hm | hs
    · exact fun he => hq c hm (Or.inr he)
    · rw [hs]; decide
  rw [pyStrip_eq_self_of_none _ _ hsq]

/-! ### Collection-driver lemmas -/

theorem scrape_foldl_records (env : Nat → FetchResult) :
    ∀ (l : List Nat) (acc : List (List (String × Value))) (log : List String),
    (l.foldl (scrapeStep env) (acc, log)).1 = acc ++ l.flatMap (pageRecords env) := by
  intro l
  induction l with
  | nil => intro acc log; simp
  | cons p rest ih =>
    intro acc log
    rw [List.foldl_cons]
    rcases henv : env p with units | m
    · have hstep : scrapeStep env (acc, log) p =
          (acc ++ units.map parse_single_review,
           (log ++ ["Scraping page " ++ toString p ++ "..."]) ++
             ["Page " ++ toString p ++ ": " ++ toString units.length ++ " reviews found."]) := by
        simp [scrapeStep, parse_page, henv]
      rw [hstep, ih, List.flatMap_cons]
      simp [pageRecords, henv]
    · have hstep : scrapeStep env (acc, log) p =
          (acc,
           (log ++ ["Scraping page " ++ toString p ++ "..."]) ++
             ["Error on page " ++ toString p ++ ": " ++ m]) := by
        simp [scrapeStep, parse_page, henv]
      rw [hstep, ih, List.flatMap_cons]
      simp [pageRecords, henv]

theorem scrape_foldl_log_mono (env : Nat → FetchResult) :
    ∀ (l : List Nat) (acc : List (List (String × Value))) (log : List String)
    (x : String), x ∈ log → x ∈ (l.foldl (scrapeStep env) (acc, log)).2 := by
  intro l
  induction l with
  | nil => intro acc log x hx; exact hx
  | cons p rest ih =>
    intro acc log x hx
    rw [List.foldl_cons]
    rcases henv : env p with units | m
    · have hstep : scrapeStep env (acc, log) p =
          (acc ++ units.map parse_single_review,
           (log ++ ["Scraping page " ++ toString p ++ "..."]) ++
             ["Page " ++ toString p ++ ": " ++ toString units.length ++ " reviews found."]) := by
        simp [scrapeStep, parse_page, henv]
      rw [hstep]
      exact ih _ _ x (List.mem_append_left _ (List.mem_append_left _ hx))
    · have hstep : scrapeStep env (acc, log) p =
          (acc,
           (log ++ ["Scraping page " ++ toString p ++ "..."]) ++
             ["Error on page " ++ toString p ++ ": " ++ m]) := by
        simp [scrapeStep, parse_page, henv]
      rw [hstep]
      exact ih _ _ x (List.mem_append_left _ (List.mem_append_left _ hx))

theorem scrape_foldl_err (env : Nat → FetchResult) :
    ∀ (l : List Nat) (acc : List (List (String × Value))) (log : List String)
    (k : Nat) (m : String), k ∈ l → env k = FetchResult.err m →
    ("Error on page " ++ toString k ++ ": " ++ m) ∈ (l.foldl (scrapeStep env) (acc, log)).2 := by
  intro l
  induction l with
  | nil => intro acc log k m hk _; simp at hk
  | cons p rest ih =>
    intro acc log k m hk he
    rw [List.foldl_cons]
    rcases List.mem_cons.mp hk with hk1 | hk2
    · subst hk1
      have hstep : scrapeStep env (acc, log) k =
          (acc,
           (log ++ ["Scraping page " ++ toString k ++ "..."]) ++
             ["Error on page " ++ toString k ++ ": " ++ m]) := by
        simp [scrapeStep, parse_page, he]
      rw [hstep]
      apply scrape_foldl_log_mono
      exact List.mem_append_right _ (by simp)
    · rcases henv : env p with units | m'
      · have hstep : scrapeStep env (acc, log) p =
            (acc ++ units.map parse_single_review,
             (log ++ ["Scraping page " ++ toString p ++ "..."]) ++
               ["Page " ++ toString p ++ ": " ++ toString units.length ++ " reviews found."]) := by
          simp [scrapeStep, parse_page, henv]
        rw [hstep]
        exact ih _ _ k m hk2 he
      · have hstep : scrapeStep env (acc, log) p =
            (acc,
             (log ++ ["Scraping page " ++ toString p ++ "..."]) ++
               ["Error on page " ++ toString p ++ ": " ++ m']) := by
          simp [scrapeStep, parse_page, henv]
        rw [hstep]
        exact ih _ _ k m hk2 he

/-- The dataset of a run is the concatenation, in page order, of each page's
contribution. -/
theorem scrape_all_records_eq (env : Nat → FetchResult) (pages : Nat) :
    (scrape_all_reviews env pages).1 =
      (List.range' 1 pages).flatMap (pageRecords env) := by
  unfold scrape_all_reviews
  rw [scrape_foldl_records]
  simp

theorem scrape_records_are_parses (env : Nat → FetchResult) (pages : Nat) :
    ∀ r ∈ (scrape_all_reviews env pages).1, ∃ u, r = parse_single_review u := by
  intro r hr
  rw [scrape_all_records_eq] at hr
  rcases List.mem_flatMap.mp hr with ⟨p, _, hrp⟩
  unfold pageRecords at hrp
  rcases henv : env p with units | m
  · rw [henv] at hrp
    rcases List.mem_map.mp hrp with ⟨u, _, hu⟩
    exact ⟨u, hu.symm⟩
  · rw [henv] at hrp
    simp at hrp

/-! ### Output-writer lemmas -/

theorem headerStep_extends (cols : List String) (r : List (String × Value)) :
    cols <+: headerStep cols r :=
  ⟨(r.map Prod.fst).filter (fun k => !cols.contains k), rfl⟩

theorem foldl_headerStep_extends :
    ∀ (records : List (List (String × Value))) (cols : List String),
    cols <+: records.foldl headerStep cols := by
  intro records
  induction records with
  | nil => intro cols; exact List.prefix_refl _
  | cons r rest ih =>
    intro cols
    rw [List.foldl_cons]
    exact List.IsPrefix.trans (headerStep_extends cols r) (ih _)

theorem csvHeader_cons (r : List (String × Value))
    (rest : List (List (String × Value))) :
    csvHeader (r :: rest) = rest.foldl headerStep (r.map Prod.fst) := by
  unfold csvHeader
  rw [List.foldl_cons]
  congr 1
  unfold headerStep
  simp

theorem keys_prefix_csvHeader (r : List (String × Value))
    (rest : List (List (String × Value))) :
    r.map Prod.fst <+: csvHeader (r :: rest) := by
  rw [csvHeader_cons]
  exact foldl_headerStep_extends rest _

theorem mem_foldl_headerStep :
    ∀ (records : List (List (String × Value))) (cols : List String) (k : String),
    (k ∈ cols ∨ ∃ r ∈ records, k ∈ r.map Prod.fst) →
    k ∈ records.foldl headerStep cols := by
  intro records
  induction records with
  | nil =>
    intro cols k h
    rcases h with h | ⟨r, hr, _⟩
    · exact h
    · simp at hr
  | cons r rest ih =>
    intro cols k h
    rw [List.foldl_cons]
    rcases h with h | ⟨r', hr', hk⟩
    · apply ih
      left
      unfold headerStep
      exact List.mem_append_left _ h
    · rcases List.mem_cons.mp hr' with h1 | h2
      · apply ih
        left
        unfold headerStep
        by_cases hc : k ∈ cols
        · exact List.mem_append_left _ hc
        · apply List.mem_append_right
          apply List.mem_filter.mpr
          refine ⟨h1 ▸ hk, ?_⟩
          simp [hc]
      · exact ih _ k (Or.inr ⟨r', h2, hk⟩)

theorem mem_csvHeader (records : List (List (String × Value)))
    (r : List (String × Value)) (k : String)
    (hr : r ∈ records) (hk : k ∈ r.map Prod.fst) : k ∈ csvHeader records :=
  mem_foldl_headerStep records [] k (Or.inr ⟨r, hr, hk⟩)

theorem zip_self_map (f : String → String) :
    ∀ (l : List String), l.zip (l.map f) = l.map (fun k => (k, f k)) := by
  intro l
  induction l with
  | nil => rfl
  | cons h rest ih => simp [ih]

theorem readBack_getVal (f : String → String) (header : List String) (k : String) :
    getVal (readBackRow header (header.map f)) k =
      if k ∈ header ∧ ¬ f k = "" then Option.some (f k) else Option.none := by
  unfold readBackRow
  rw [zip_self_map]
  induction header with
  | nil => simp [getVal]
  | cons h rest ih =>
    rw [List.map_cons, List.filter_cons]
    by_cases hfh : f h = ""
    · rw [if_neg (by simp [hfh])]
      rw [ih]
      by_cases hkh : k = h
      · subst hkh
        simp [hfh]
      · simp [hkh]
    · rw [if_pos (by simp [hfh])]
      by_cases hkh : k = h
      · subst hkh
        have hv : getVal ((k, f k) ::
            (rest.map (fun k => (k, f k))).filter (fun p => decide ¬(p.2 = ""))) k =
            Option.some (f k) := by
          simp [getVal]
        rw [hv]
        simp [hfh]
      · have hv : getVal ((h, f h) ::
            (rest.map (fun k => (k, f k))).filter (fun p => decide ¬(p.2 = ""))) k =
            getVal ((rest.map (fun k => (k, f k))).filter (fun p => decide ¬(p.2 = ""))) k := by
          have hne : ¬ ((h, f h).1 = k) := fun hh => hkh hh.symm
          simp [getVal, hne]
        rw [hv, ih]
        simp [hkh]

/-! ### Record-access helpers -/

theorem getVal_parse_fixed (u : ReviewUnit) (k : String)
    (hc : ¬ k ∈ (extract_review_details u).map Prod.fst) :
    getVal (parse_single_review u) k = getVal (fixedRecord u) k :=
  getVal_dictUpdate_not_mem _ _ _ hc

/-! ### Claim theorems -/

/-- C1: for every run in which fetching page `k` (1 ≤ k ≤ pages) raises, the
collection driver catches the failure, emits the diagnostic naming page `k`,
lets page `k` contribute zero records, and still returns the dataset made of
every page's contribution in page order.  Record counts are therefore the sum
of the successful pages' counts. -/
theorem scrape_all_isolates_page_failure (env : Nat → FetchResult)
    (pages k : Nat) (m : String) (h1 : 1 ≤ k) (h2 : k ≤ pages)
    (he : env k = FetchResult.err m) :
    (scrape_all_reviews env pages).1 = (List.range' 1 pages).flatMap (pageRecords env) ∧
    pageRecords env k = [] ∧
    ("Error on page " ++ toString k ++ ": " ++ m) ∈ (scrape_all_reviews env pages).2 := by
  refine ⟨scrape_all_records_eq env pages, ?_, ?_⟩
  · unfold pageRecords
    rw [he]
  · unfold scrape_all_reviews
    apply scrape_foldl_err env _ [] [] k m ?_ he
    rw [List.mem_range'_1]
    exact ⟨h1, by omega⟩

theorem scrape_all_isolates_page_failure_witness :
    (1 ≤ 2 ∧ 2 ≤ 3 ∧ envPage2Fails 2 = FetchResult.err "ConnectionError") ∧
    ("Error on page 2: ConnectionError") ∈ (scrape_all_reviews envPage2Fails 3).2 ∧
    (scrape_all_reviews envPage2Fails 3).1.length =
      (pageRecords envPage2Fails 1).length + (pageRecords envPage2Fails 3).length := by
  refine ⟨⟨by decide, by decide, by decide⟩, ?_, by decide⟩
  exact (scrape_all_isolates_page_failure envPage2Fails 3 2 "ConnectionError"
    (by decide) (by decide) (by decide)).2.2

/-- C2: the record parser is total — every unit yields a record carrying all
six fixed fields, each computed independently from its own element with a
per-field default (here stated for units whose detail table does not collide
with the fixed names, collisions being C4's overwrite case); in particular a
missing author element degrades only Author, to `""`. -/
theorem parse_single_review_complete (u : ReviewUnit)
    (hc : ∀ k ∈ (extract_review_details u).map Prod.fst, ¬ k ∈ fixedKeys) :
    getVal (parse_single_review u) "Date" = Option.some (Value.str (fieldDate u)) ∧
    getVal (parse_single_review u) "Author" = Option.some (Value.str (fieldAuthor u)) ∧
    getVal (parse_single_review u) "Title" = Option.some (Value.str (fieldTitle u)) ∧
    getVal (parse_single_review u) "Rating" = Option.some (fieldRating u) ∧
    getVal (parse_single_review u) "Trip Verified" = Option.some (Value.str (fieldTrip u)) ∧
    getVal (parse_single_review u) "Review" = Option.some (Value.str (bodyContent u)) ∧
    (u.authorText = Option.none →
      getVal (parse_single_review u) "Author" = Option.some (Value.str "")) := by
  have step : ∀ k : String, k ∈ fixedKeys →
      getVal (parse_single_review u) k = getVal (fixedRecord u) k := by
    intro k hk
    exact getVal_parse_fixed u k (fun hmem => hc k hmem hk)
  refine ⟨?_, ?_, ?_, ?_, ?_, ?_, ?_⟩
  · rw [step "Date" (by decide)]; rfl
  · rw [step "Author" (by decide)]; rfl
  · rw [step "Title" (by decide)]; rfl
  · rw [step "Rating" (by decide)]; rfl
  · rw [step "Trip Verified" (by decide)]; rfl
  · rw [step "Review" (by decide)]; rfl
  · intro hnone
    rw [step "Author" (by decide)]
    have ha : fieldAuthor u = "" := by rw [fieldAuthor, hnone]
    show Option.some (Value.str (fieldAuthor u)) = Option.some (Value.str "")
    rw [ha]

theorem parse_single_review_complete_witness :
    (∀ k ∈ (extract_review_details unitNoAuthor).map Prod.fst, ¬ k ∈ fixedKeys) ∧
    getVal (parse_single_review unitNoAuthor) "Author" = Option.some (Value.str "") ∧
    getVal (parse_single_review unitNoAuthor) "Date" =
      Option.some (Value.str "2024-05-02") := by
  refine ⟨by decide, ?_, ?_⟩
  · exact (parse_single_review_complete unitNoAuthor (by decide)).2.2.2.2.2.2 rfl
  · exact (parse_single_review_complete unitNoAuthor (by decide)).1

/-- C3 counterexample: on a unit whose raw body text is "Trip ✅Verified" the
parser reports "Yes", yet the raw body text taken BEFORE the marker glyphs are
stripped does not contain the substring "Trip Verified" — the code tests the
text after glyph removal, so the claim as stated is false. -/
theorem trip_verified_pre_strip_counterexample :
    getVal (parse_single_review unitGlyphSplit) "Trip Verified" =
      Option.some (Value.str "Yes") ∧
    containsSub "Trip Verified" (pyStripStr "Trip ✅Verified") = false ∧
    unitGlyphSplit.contentText = Option.some "Trip ✅Verified" := by
  refine ⟨by decide, by decide, by decide⟩

/-- C3 amended: Trip Verified is "Yes" iff the body text AFTER the check-mark
and cross-mark glyphs are removed contains the exact substring
"Trip Verified"; if body extraction itself fails it is "No".  (Stated for
units whose detail table does not override the "Trip Verified" key.) -/
theorem trip_verified_post_strip (u : ReviewUnit)
    (hc : ¬ "Trip Verified" ∈ (extract_review_details u).map Prod.fst) :
    (getVal (parse_single_review u) "Trip Verified" = Option.some (Value.str "Yes") ↔
      containsSub "Trip Verified" (bodyContent u) = true) ∧
    (u.contentText = Option.none →
      getVal (parse_single_review u) "Trip Verified" = Option.some (Value.str "No")) := by
  have hbase : getVal (parse_single_review u) "Trip Verified" =
      Option.some (Value.str (fieldTrip u)) := by
    rw [getVal_parse_fixed u _ hc]
    rfl
  constructor
  · rw [hbase]
    unfold fieldTrip
    by_cases hb : containsSub "Trip Verified" (bodyContent u) = true
    · simp [hb]
    · rw [if_neg hb]
      simp [hb]
  · intro hnone
    rw [hbase]
    unfold fieldTrip
    rw [show bodyContent u = "" from by rw [bodyContent, hnone]]
    rw [if_neg (by decide)]

theorem trip_verified_post_strip_witness :
    (¬ "Trip Verified" ∈ (extract_review_details unitFull).map Prod.fst) ∧
    getVal (parse_single_review unitFull) "Trip Verified" =
      Option.some (Value.str "Yes") := by
  refine ⟨by decide, ?_⟩
  exact (trip_verified_post_strip unitFull (by decide)).1.mpr (by decide)

/-- C4: a detail-table key equal to a fixed field name wins the merge — the
record maps that key to the detail-table value. -/
theorem detail_table_overwrites_fixed (u : ReviewUnit) (k : String) (v : Value)
    (_hk : k ∈ fixedKeys)
    (hv : getVal (extract_review_details u) k = Option.some v) :
    getVal (parse_single_review u) k = Option.some v :=
  getVal_dictUpdate_mem _ _ _ _ (extract_keys_nodup u) hv

theorem detail_table_overwrites_fixed_witness :
    ("Date" ∈ fixedKeys ∧
      getVal (extract_review_details unitDateRow) "Date" =
        Option.some (Value.str "5th May 2024")) ∧
    getVal (parse_single_review unitDateRow) "Date" =
      Option.some (Value.str "5th May 2024") := by
  refine ⟨⟨by decide, by decide⟩, ?_⟩
  exact detail_table_overwrites_fixed unitDateRow "Date" (Value.str "5th May 2024")
    (by decide) (by decide)

/-- C9: a rating element whose text is the empty string (the only falsy
string) yields the absent marker `None`, exactly as when the element is
missing — never an empty-string rating.  (Stated for units whose detail table
does not override the "Rating" key.) -/
theorem rating_falsy_is_none (u : ReviewUnit)
    (h : u.ratingText = Option.some "" ∨ u.ratingText = Option.none)
    (hc : ¬ "Rating" ∈ (extract_review_details u).map Prod.fst) :
    getVal (parse_single_review u) "Rating" = Option.some Value.none := by
  have hbase : getVal (parse_single_review u) "Rating" =
      Option.some (fieldRating u) := by
    rw [getVal_parse_fixed u _ hc]
    rfl
  rw [hbase]
  rcases h with h | h
  · rw [show fieldRating u = Value.none from by rw [fieldRating, h]; rfl]
  · rw [show fieldRating u = Value.none from by rw [fieldRating, h]]

theorem rating_falsy_is_none_witness :
    getVal (parse_single_review unitEmptyRating) "Rating" = Option.some Value.none ∧
    getVal (parse_single_review unitNoRating) "Rating" = Option.some Value.none := by
  constructor
  · exact rating_falsy_is_none unitEmptyRating (Or.inl rfl) (by decide)
  · exact rating_falsy_is_none unitNoRating (Or.inr rfl) (by decide)

/-- C5 counterexample: `clean_text` is not idempotent.  On a double-quote
layer wrapped inside a single-quote layer the first application strips only
the single quotes (exposing the double quotes), and the second application
strips those too. -/
theorem clean_text_not_idempotent :
    clean_text (clean_text "\x27\x22abc\x22\x27") ≠ clean_text "\x27\x22abc\x22\x27" := by
  decide

/-- C5 amended: `clean_text` is idempotent on every string that contains no
double-quote and no single-quote character — quote-layer peeling is the only
source of non-idempotence. -/
theorem clean_text_idempotent_no_quotes (s : String)
    (hq : ∀ c ∈ s.data, ¬(c = '"' ∨ c = '\x27')) :
    clean_text (clean_text s) = clean_text s := by
  have hmemx : ∀ c ∈ pyStrip isPyWs (collapseWs (s.data.filter (fun c => c.toNat ≤ 127))),
      c ∈ s.data.filter (fun c => c.toNat ≤ 127) ∨ c = ' ' := fun c hc =>
    mem_collapseAux _ false c (mem_pyStrip _ _ c hc)
  have htq : ∀ c ∈ (String.mk (pyStrip isPyWs
      (collapseWs (s.data.filter (fun c => c.toNat ≤ 127))))).data,
      ¬(c = '"' ∨ c = '\x27') := by
    rw [data_mk]
    intro c hc
    rcases hmemx c hc with hm | hs
    · exact hq c (List.mem_filter.mp hm).1
    · rw [hs]; decide
  rw [clean_text_no_quotes_eq s hq, clean_text_no_quotes_eq _ htq, data_mk]
  congr 1
  have hta : ∀ c ∈ pyStrip isPyWs (collapseWs (s.data.filter (fun c => c.toNat ≤ 127))),
      (decide (c.toNat ≤ 127)) = true := by
    intro c hc
    rcases hmemx c hc with hm | hs
    · exact (List.mem_filter.mp hm).2
    · rw [hs]; decide
  rw [List.filter_eq_self.mpr hta]
  have hclean : WsClean (pyStrip isPyWs
      (collapseWs (s.data.filter (fun c => c.toNat ≤ 127)))) := fun c hc hw =>
    wsClean_collapseAux _ false c (mem_pyStrip _ _ c hc) hw
  have hrun : NoWsRun (pyStrip isPyWs
      (collapseWs (s.data.filter (fun c => c.toNat ≤ 127)))) :=
    noWsRun_pyStrip isPyWs _
      (noWsRun_collapseAux (s.data.filter (fun c => c.toNat ≤ 127)) false)
  rw [show collapseWs (pyStrip isPyWs
      (collapseWs (s.data.filter (fun c => c.toNat ≤ 127)))) =
      pyStrip isPyWs (collapseWs (s.data.filter (fun c => c.toNat ≤ 127))) from
    collapseAux_eq_self _ hclean hrun]
  exact pyStrip_eq_self_of_ends isPyWs _
    (fun c hc => pyStrip_head isPyWs _ c hc)
    (fun c hc => pyStrip_getLast isPyWs _ c hc)

theorem clean_text_idempotent_no_quotes_witness :
    (∀ c ∈ ("Great  flight – très bien!").data, ¬(c = '"' ∨ c = '\x27')) ∧
    clean_text (clean_text "Great  flight – très bien!") =
      clean_text "Great  flight – très bien!" :=
  ⟨by decide, clean_text_idempotent_no_quotes _ (by decide)⟩

/-- C6 counterexample: on the spec's own example input the output is NOT
`Great "flight" - trs bien`: the curly quotes (and the dash) are non-ASCII,
so step 1 drops them before the quote-replacement step can see them. -/
theorem clean_text_example_counterexample :
    clean_text "Great “flight” – très bien" ≠ "Great \x22flight\x22 - trs bien" := by
  decide

/-- C6 amended: `clean_text` on `Great “flight” – très bien` returns
`Great flight trs bien` — curly quotes are dropped by the non-ASCII filter,
not replaced by straight ASCII quotes. -/
theorem clean_text_example_value :
    clean_text "Great “flight” – très bien" = "Great flight trs bien" := by
  decide

/-- C7 counterexample: on `""abc""` — whose whitespace-collapsed form begins
and ends with two double-quote characters — `clean_text` returns `abc`,
which does not begin (or end) with a double quote, refuting the
one-layer-stripping claim. -/
theorem clean_text_one_layer_counterexample :
    collapseWs ((("\x22\x22abc\x22\x22").data.filter
        (fun c => c.toNat ≤ 127)).map curlyMap) = ("\x22\x22abc\x22\x22").data ∧
    clean_text "\x22\x22abc\x22\x22" = "abc" ∧
    ¬ (clean_text "\x22\x22abc\x22\x22").data.head? = Option.some '\x22' := by
  refine ⟨by decide, by decide, by decide⟩

/-- C7 amended: the final step strips ALL layers of leading and trailing
double-quote characters, then all single-quote layers, then whitespace:
wrapping a nonempty quote-free, whitespace-collapsed ASCII word in two
double-quote layers yields the bare word, with no quote character left at
either end. -/
theorem clean_text_strips_all_quote_layers (w : List Char) (hw : w ≠ [])
    (hascii : ∀ c ∈ w, c.toNat ≤ 127)
    (hq : ∀ c ∈ w, ¬(c = '"' ∨ c = '\x27'))
    (hclean : WsClean w) (hrun : NoWsRun w)
    (hhead : Option.all (fun c => !isPyWs c) w.head? = true)
    (hlast : Option.all (fun c => !isPyWs c) w.getLast? = true) :
    clean_text (String.mk ('"' :: '"' :: (w ++ ['"', '"']))) = String.mk w := by
  rw [clean_text_unfold, data_mk]
  have hLmem : ∀ c ∈ ('"' :: '"' :: (w ++ ['"', '"'])), c = '"' ∨ c ∈ w := by
    intro c hc
    rcases List.mem_cons.mp hc with h | hc2
    · exact Or.inl h
    rcases List.mem_cons.mp hc2 with h | hc3
    · exact Or.inl h
    rcases List.mem_append.mp hc3 with h | h
    · exact Or.inr h
    · rcases List.mem_cons.mp h with h1 | h1
      · exact Or.inl h1
      · rcases List.mem_cons.mp h1 with h2 | h2
        · exact Or.inl h2
        · exact absurd h2 (List.not_mem_nil c)
  have hLascii : ∀ c ∈ ('"' :: '"' :: (w ++ ['"', '"'])),
      (decide (c.toNat ≤ 127)) = true := by
    intro c hc
    apply decide_eq_true
    rcases hLmem c hc with h | h
    · rw [h]; decide
    · exact hascii c h
  rw [List.filter_eq_self.mpr hLascii]
  have hLmap : ('"' :: '"' :: (w ++ ['"', '"'])).map curlyMap =
      ('"' :: '"' :: (w ++ ['"', '"'])) := by
    have hpt : ∀ c ∈ ('"' :: '"' :: (w ++ ['"', '"'])), curlyMap c = id c := by
      intro c hc
      show curlyMap c = c
      rcases hLmem c hc with h | h
      · rw [h]; decide
      · exact curlyMap_eq_self_of_ascii c (hascii c h)
    rw [List.map_congr_left hpt, List.map_id]
  rw [hLmap]
  have hwsq : isPyWs '"' = false := by decide
  have hLclean : WsClean ('"' :: '"' :: (w ++ ['"', '"'])) := by
    intro c hc hwc
    rcases hLmem c hc with h | h
    · rw [h] at hwc; exact absurd hwc (by decide)
    · exact hclean c h hwc
  have hLrun : NoWsRun ('"' :: '"' :: (w ++ ['"', '"'])) := by
    unfold NoWsRun
    rw [List.chain'_cons']
    refine ⟨?_, ?_⟩
    · intro y _ hcon; rw [hwsq] at hcon; exact Bool.false_ne_true hcon.1
    rw [List.chain'_cons']
    refine ⟨?_, ?_⟩
    · intro y _ hcon; rw [hwsq] at hcon; exact Bool.false_ne_true hcon.1
    rw [List.chain'_append]
    refine ⟨hrun, ?_, ?_⟩
    · exact (show NoWsRun ['"', '"'] by decide)
    · intro x _ y hy hcon
      simp only [List.head?_cons, Option.mem_def, Option.some.injEq] at hy
      rw [← hy, hwsq] at hcon
      exact Bool.false_ne_true hcon.2
  rw [show collapseWs ('"' :: '"' :: (w ++ ['"', '"'])) =
      ('"' :: '"' :: (w ++ ['"', '"'])) from collapseAux_eq_self _ hLclean hLrun]
  rcases w with _ | ⟨a, w'⟩
  · exact absurd rfl hw
  have hsq' : ∀ c ∈ a :: w', (decide (c = '"')) = false := by
    intro c hc
    exact decide_eq_false (fun he => hq c hc (Or.inl he))
  have hstripDq : pyStrip (fun c => c = '"')
      ('"' :: '"' :: ((a :: w') ++ ['"', '"'])) = a :: w' := by
    unfold pyStrip
    have ha : (decide (a = '"')) = false := hsq' a (List.mem_cons_self a w')
    have hd1 : List.dropWhile (fun c => decide (c = '"'))
        ('"' :: '"' :: ((a :: w') ++ ['"', '"'])) = (a :: w') ++ ['"', '"'] := by
      rw [List.dropWhile_cons, if_pos (by decide), List.dropWhile_cons,
        if_pos (by decide), List.cons_append, List.dropWhile_cons,
        if_neg (fun hcon => by rw [ha] at hcon; exact Bool.false_ne_true hcon),
        ← List.cons_append]
    rw [hd1]
    have hd2 : ((a :: w') ++ ['"', '"']).reverse = '"' :: '"' :: (a :: w').reverse := by
      simp
    rw [hd2]
    rcases hrev : (a :: w').reverse with _ | ⟨b, rb⟩
    · exact absurd hrev (by simp)
    · have hb : b ∈ a :: w' := by
        rw [← List.mem_reverse, hrev]
        exact List.mem_cons_self b rb
      have hbq : (decide (b = '"')) = false := hsq' b hb
      rw [List.dropWhile_cons, if_pos (by decide), List.dropWhile_cons,
        if_pos (by decide), List.dropWhile_cons,
        if_neg (fun hcon => by rw [hbq] at hcon; exact Bool.false_ne_true hcon),
        ← hrev, List.reverse_reverse]
  rw [hstripDq]
  rw [pyStrip_eq_self_of_none _ _
    (fun c hc => decide_eq_false (fun he => hq c hc (Or.inr he)))]
  rw [pyStrip_eq_self_of_ends isPyWs (a :: w')
    (fun c hc => by rw [hc] at hhead; simpa using hhead)
    (fun c hc => by rw [hc] at hlast; simpa using hlast)]

theorem clean_text_strips_all_quote_layers_witness :
    (['a', 'b', 'c'] ≠ ([] : List Char) ∧ NoWsRun ['a', 'b', 'c'] ∧
      WsClean ['a', 'b', 'c']) ∧
    clean_text (String.mk ('"' :: '"' :: (['a', 'b', 'c'] ++ ['"', '"']))) =
      String.mk ['a', 'b', 'c'] :=
  ⟨⟨by decide, by decide, by decide⟩,
    clean_text_strips_all_quote_layers ['a', 'b', 'c'] (by decide) (by decide)
      (by decide) (by decide) (by decide) (by decide) (by decide)⟩

/-- C8: writing a dataset and re-reading it reproduces every field that was
present with a non-empty serialization (position-aligned via the shared
header), while fields a record lacks — and the absent `None` marker — read
back as missing, never as a substituted default such as the literal "0". -/
theorem csv_round_trip (records : List (List (String × Value)))
    (r : List (String × Value)) (k : String) (hr : r ∈ records) :
    (∀ v, getVal r k = Option.some v → ¬ cellOf v = "" →
      getVal (readBackRow (csvHeader records) (csvRow records r)) k =
        Option.some (cellOf v)) ∧
    (getVal r k = Option.none →
      getVal (readBackRow (csvHeader records) (csvRow records r)) k =
        Option.none) := by
  have hrow : csvRow records r = (csvHeader records).map (fun k =>
      match getVal r k with
      | Option.some v => cellOf v
      | Option.none => "") := rfl
  rw [hrow, readBack_getVal (fun k =>
      match getVal r k with
      | Option.some v => cellOf v
      | Option.none => "") (csvHeader records) k]
  constructor
  · intro v hv hne
    have hfk : (match getVal r k with
        | Option.some v => cellOf v
        | Option.none => "") = cellOf v := by rw [hv]
    have hmem : k ∈ csvHeader records := by
      apply mem_csvHeader records r k hr
      apply (getVal_isSome_iff r k).mp
      rw [hv]
      rfl
    rw [if_pos ⟨hmem, by rw [hfk]; exact hne⟩, hfk]
  · intro hv
    have hfk : (match getVal r k with
        | Option.some v => cellOf v
        | Option.none => "") = "" := by rw [hv]
    rw [if_neg (fun hcon => hcon.2 hfk)]

theorem csv_round_trip_witness :
    getVal (readBackRow (csvHeader rtRecords) (csvRow rtRecords rtRecord1)) "Date" =
      Option.some "2024-05-01" ∧
    getVal (readBackRow (csvHeader rtRecords) (csvRow rtRecords rtRecord1))
      "Seat Comfort" = Option.none ∧
    getVal (readBackRow (csvHeader rtRecords) (csvRow rtRecords rtRecord2))
      "Seat Comfort" = Option.some "4" := by
  refine ⟨?_, ?_, ?_⟩
  · exact (csv_round_trip rtRecords rtRecord1 "Date" (by decide)).1
      (Value.str "2024-05-01") (by decide) (by decide)
  · exact (csv_round_trip rtRecords rtRecord1 "Seat Comfort" (by decide)).2 (by decide)
  · exact (csv_round_trip rtRecords rtRecord2 "Seat Comfort" (by decide)).1
      (Value.int 4) (by decide) (by decide)

/-- C10: a record's keys are the six fixed names, in source order, followed by
the detail-table keys in row order (a colliding detail key keeps the fixed
position, so it is absent from the tail); consequently whenever the run
produced at least one record, the output header begins with the six fixed
columns in that order. -/
theorem record_key_order_and_header :
    (∀ u : ReviewUnit, (parse_single_review u).map Prod.fst =
      fixedKeys ++ ((extract_review_details u).map Prod.fst).filter
        (fun k => !(fixedKeys.contains k))) ∧
    (∀ (env : Nat → FetchResult) (pages : Nat),
      (scrape_all_reviews env pages).1 ≠ [] →
      fixedKeys <+: csvHeader (scrape_all_reviews env pages).1) := by
  have hkeys : ∀ u : ReviewUnit, (parse_single_review u).map Prod.fst =
      fixedKeys ++ ((extract_review_details u).map Prod.fst).filter
        (fun k => !(fixedKeys.contains k)) := by
    intro u
    show (dictUpdate (fixedRecord u) (extract_review_details u)).map Prod.fst = _
    rw [keys_dictUpdate _ _ (extract_keys_nodup u)]
    rfl
  refine ⟨hkeys, ?_⟩
  intro env pages hne
  rcases hrec : (scrape_all_reviews env pages).1 with _ | ⟨r, rest⟩
  · exact absurd hrec hne
  · have hr : r ∈ (scrape_all_reviews env pages).1 := by
      rw [hrec]
      exact List.mem_cons_self _ _
    rcases scrape_records_are_parses env pages r hr with ⟨u, hu⟩
    refine List.IsPrefix.trans ?_ (keys_prefix_csvHeader r rest)
    rw [hu, hkeys u]
    exact ⟨_, rfl⟩

theorem record_key_order_and_header_witness :
    (parse_single_review unitFull).map Prod.fst =
      ["Date", "Author", "Title", "Rating", "Trip Verified", "Review",
       "Seat Comfort", "Recommended"] ∧
    ((scrape_all_reviews envOnePage 1).1 ≠ [] ∧
      fixedKeys <+: csvHeader (scrape_all_reviews envOnePage 1).1) := by
  refine ⟨by decide, by decide, ?_⟩
  exact record_key_order_and_header.2 envOnePage 1 (by decide)
